import Mathlib

/-!
Verification of the codapi execution engine specification.

The development shallowly embeds the configuration loader and the Docker
execution engine of the codapi code-execution service.  The configuration
loader is translated from internal/config/load.go.  The Docker engine
itself is not part of the source tree; its definitions are modelled from
the specification (sections 4.A to 4.E) and cross-checked against the
behaviour recorded in internal/engine/docker_test.go, which is translated
below as concrete configuration data and canned runner behaviours.

Strings are modelled as Lean strings; byte caps on captured output are
modelled as caps on the number of characters.  The container runtime is
modelled as a deterministic behaviour function from the set of running
container names, the argv vector, and the optional stdin payload to a
process outcome.
-/

namespace Codapi

/-- Boolean test that pat is a prefix of s, character by character. -/
def startsWithTok : List Char → List Char → Bool
  | [], _ => true
  | _ :: _, [] => false
  | p :: ps, c :: cs => p == c && startsWithTok ps cs

/-- Boolean test that pat occurs as a contiguous substring of s. -/
def containsTok (pat : List Char) : List Char → Bool
  | [] => startsWithTok pat []
  | c :: cs => startsWithTok pat (c :: cs) || containsTok pat cs

/-- Scan and replace with explicit fuel so that the function is
structurally recursive: at each position, if pat matches, emit rep and
skip past the match, otherwise keep the character.  The fuel is always
instantiated with the length of the scanned list, which suffices. -/
def replaceAllAux (pat rep : List Char) : Nat → List Char → List Char
  | 0, s => s
  | _ + 1, [] => []
  | f + 1, c :: rest =>
    if startsWithTok pat (c :: rest) then
      rep ++ replaceAllAux pat rep f (List.drop (pat.length - 1) rest)
    else
      c :: replaceAllAux pat rep f rest

/-- Replace every occurrence of pat in s by rep, scanning left to right. -/
def replaceAll (pat rep s : List Char) : List Char :=
  replaceAllAux pat rep s.length s

/-- Modelled from the spec: string replacement used for the one-token
template mechanism and for the volume template of a box.  Mirrors the Go
strings.ReplaceAll calls of the engine, which is absent from the source
tree. -/
def strReplace (pat rep s : String) : String :=
  String.mk (replaceAll pat.data rep.data s.data)

/-- Modelled from the spec: variable expansion over an argv vector.  The
engine replaces the token for the ephemeral container name in every argv
element with the request id, preserving order; no other substitution is
performed. -/
def expandVars (argv : List String) (name : String) : List String :=
  argv.map (fun s => strReplace ":name" name s)

/-- Split a character list on the path separator. -/
def splitComponents : List Char → List (List Char)
  | [] => [[]]
  | c :: rest =>
    let r := splitComponents rest
    if c = '/' then [] :: r
    else
      match r with
      | [] => [[c]]
      | h :: t => (c :: h) :: t

/-- Modelled from the spec: a file name is unsafe when it has an absolute
prefix or contains a dot-dot path component. -/
def isUnsafeName (name : String) : Bool :=
  startsWithTok ['/'] name.data || (splitComponents name.data).contains ['.', '.']

/-- Host resource envelope of a box (config model, section 3). -/
structure Host where
  cpu : Nat := 0
  memory : Nat := 0
  network : String := ""
  volume : String := ""
  nproc : Nat := 0
  deriving DecidableEq, Repr

/-- A box: a named container image plus host resource envelope. -/
structure Box where
  image : String
  runtime : String := ""
  host : Host := {}
  deriving DecidableEq, Repr

/-- A single container invocation of a command pipeline. -/
structure Step where
  box : String
  version : String := ""
  user : String := ""
  action : String
  command : List String := []
  stdin : Bool := false
  detach : Bool := false
  nOutput : Nat := 0
  deriving DecidableEq, Repr

/-- A command: an ordered pipeline of steps with optional hooks. -/
structure Command where
  engine : String := "docker"
  entry : String := ""
  before : Option Step := none
  steps : List Step := []
  after : Option Step := none
  deriving DecidableEq, Repr

/-- A validated request as seen by the engine.  The files map is modelled
as an association list; the entry file is stored under the empty key. -/
structure Request where
  id : String
  sandbox : String := ""
  version : String := ""
  command : String := ""
  files : List (String × String) := []
  deriving DecidableEq, Repr

/-- The response produced by the engine. -/
structure Response where
  id : String
  ok : Bool
  stdout : String
  stderr : String
  err : Option String
  deriving DecidableEq, Repr

/-- Outcome of one external process invocation: captured streams, exit
code, and an optional runner error (spawn failure, timeout, io failure). -/
structure CmdOut where
  stdout : String := ""
  stderr : String := ""
  exitCode : Nat := 0
  err : Option String := none
  deriving DecidableEq, Repr

/-- Association list lookup keyed by strings. -/
def alookup {α : Type} : List (String × α) → String → Option α
  | [], _ => none
  | (k, v) :: rest, key => if k = key then some v else alookup rest key

/-- Modelled from the spec (section 4.A): box and version resolution.  If
the version is empty or latest, the base box is returned; otherwise the
box registered under the versioned key; failing that, an unknown box
error naming the requested name and version. -/
def resolveBox (boxes : List (String × Box)) (name ver : String) : Except String Box :=
  let key := if ver = "" ∨ ver = "latest" then name else name ++ ":" ++ ver
  match alookup boxes key with
  | some box => Except.ok box
  | none => Except.error ("unknown box " ++ name ++ ":" ++ ver)

/-- Modelled from the spec: the request-level version applies to every
step whose own version is empty; a step-level version overrides it. -/
def effectiveVersion (step : Step) (reqVersion : String) : String :=
  if step.version = "" then reqVersion else step.version

/-- Modelled from the spec (section 4.C): find the first file entry whose
name fails validation.  The empty name denotes the entry file and is
handled separately. -/
def findUnsafe : List (String × String) → Option String
  | [] => none
  | (n, _) :: rest => if isUnsafeName n then some n else findUnsafe rest

/-- Modelled from the spec (section 4.C): workspace materialization.
Every non-empty file name is validated first; on violation the engine
fails fast with the invalid filename error and nothing is written.  The
entry file (empty key) is written under the entry name of the command;
when the entry name is empty and several files are present the request is
rejected.  The result is the list of relative paths written inside the
workspace. -/
def writeFiles (entry : String) (files : List (String × String)) :
    Except String (List String) :=
  match findUnsafe files with
  | some n => Except.error ("files[" ++ n ++ "]: invalid name")
  | none =>
    if entry = "" ∧ 1 < files.length ∧ "" ∈ files.map Prod.fst then
      Except.error "empty entry name with multiple files"
    else
      Except.ok (files.filterMap (fun p =>
        if p.1 = "" then (if entry = "" then none else some entry) else some p.1))

/-- Modelled from the spec: the ephemeral workspace directory of a
request, a unique directory under the system temp root keyed by the
request id. -/
def workspaceDir (id : String) : String := "/tmp/codapi/" ++ id

/-- Truncate a string to at most n characters (modelling the byte cap of
the bounded capture buffers). -/
def takeOut (n : Nat) (s : String) : String := String.mk (s.data.take n)

/-- Modelled from the spec (section 4.B): captured stdout and stderr are
each independently truncated to the output cap; excess is discarded
silently and neither the exit code nor the error status changes. -/
def truncOut (n : Nat) (o : CmdOut) : CmdOut :=
  { o with stdout := takeOut n o.stdout, stderr := takeOut n o.stderr }

/-- Modelled from the spec (section 4.E): argv assembly for a run step.
The container name slot holds the name token, which variable expansion
turns into the request id. -/
def runArgs (box : Box) (ws : String) (step : Step) : List String :=
  ["docker", "run", "--rm", "--name", ":name",
   "--runtime", box.runtime,
   "--network", box.host.network,
   "--cpus", toString box.host.cpu,
   "--memory", toString box.host.memory ++ "m",
   "--pids-limit", toString box.host.nproc,
   "--volume", strReplace "%s" ws box.host.volume]
  ++ (if step.detach then ["--detach"] else [])
  ++ (if step.stdin then ["--interactive"] else [])
  ++ ["--user", step.user, box.image]
  ++ step.command

/-- Modelled from the spec (section 4.E): argv assembly for an exec step
against a running container. -/
def execArgs (step : Step) : List String :=
  ["docker", "exec", "--interactive", "--user", step.user, step.box] ++ step.command

/-- Modelled from the spec (section 4.E): argv assembly for a stop step. -/
def stopArgs (step : Step) : List String :=
  ["docker", "stop", step.box]

/-- Modelled from the spec (section 4.E step 4a and 4b): resolve the box
of a step, honoring the request-level and step-level versions, and
assemble the argv for its action. -/
def stepArgs (boxes : List (String × Box)) (req : Request) (step : Step)
    (ws : String) : Except String (List String) :=
  if step.action = "run" then
    match resolveBox boxes step.box (effectiveVersion step req.version) with
    | Except.ok box => Except.ok (runArgs box ws step)
    | Except.error e => Except.error e
  else if step.action = "exec" then Except.ok (execArgs step)
  else Except.ok (stopArgs step)

/-- Deterministic behaviour of the container runtime: from the set of
running container names, the argv vector, and the optional stdin payload
to a process outcome. -/
abbrev Beh := List String → List String → Option String → CmdOut

/-- The container name a step addresses, after expanding the name token. -/
def containerName (step : Step) (id : String) : String :=
  strReplace ":name" id step.box

/-- Modelled from the spec (state machine of a detached box): a detached
run that was actually spawned adds the container named after the request
id to the running set; a stop removes the addressed container; every
other action and a run without detach (started with the remove flag)
leave the set unchanged. -/
def worldUpdate (step : Step) (id : String) (spawned : Bool)
    (w : List String) : List String :=
  if step.action = "run" then
    (if step.detach && spawned then id :: w else w)
  else if step.action = "stop" then w.erase (containerName step id)
  else w

/-- Contents of the entry file of a request (empty when absent). -/
def entryContent (req : Request) : String :=
  match alookup req.files "" with
  | some c => c
  | none => ""

/-- Modelled from the spec (section 4.E step 4): execute one step.
Returns the argv handed to the runner (none when box resolution failed
and the runner was never invoked), the step result (a runner error, or
the outcome with both streams truncated to the output cap of the step),
and the updated set of running containers. -/
def execStep (boxes : List (String × Box)) (beh : Beh) (req : Request)
    (ws : String) (step : Step) (w : List String) :
    Option (List String) × Except String CmdOut × List String :=
  match stepArgs boxes req step ws with
  | Except.error e => (none, Except.error e, w)
  | Except.ok argv0 =>
    let argv := expandVars argv0 req.id
    let o := beh w argv (if step.stdin then some (entryContent req) else none)
    match o.err with
    | some e => (some argv, Except.error e, worldUpdate step req.id false w)
    | none => (some argv, Except.ok (truncOut step.nOutput o), worldUpdate step req.id true w)

/-- Phase of the pipeline a recorded runner invocation belongs to. -/
inductive Phase where
  | before : Phase
  | stepP : Phase
  | after : Phase
  deriving DecidableEq, Repr

/-- Running state of one engine invocation: aggregated streams, failure
flags, the trace of attempted phases with the argv handed to the runner,
and the set of running containers. -/
structure ExecState where
  stdout : String := ""
  stderr : String := ""
  failed : Bool := false
  err : Option String := none
  trace : List (Phase × Option (List String)) := []
  world : List String := []
  deriving Repr

/-- Modelled from the spec (section 4.E step 4): execute the steps in
order, aggregating both streams; a runner or resolution error
short-circuits the list, and a non-zero exit halts the remaining steps. -/
def runSteps (boxes : List (String × Box)) (beh : Beh) (req : Request)
    (ws : String) : List Step → ExecState → ExecState
  | [], s => s
  | step :: rest, s =>
    match execStep boxes beh req ws step s.world with
    | (argvO, res, w) =>
      let s1 := { s with world := w, trace := s.trace ++ [(Phase.stepP, argvO)] }
      match res with
      | Except.error e => { s1 with err := some e }
      | Except.ok o =>
        let s2 := { s1 with stdout := s1.stdout ++ o.stdout,
                            stderr := s1.stderr ++ o.stderr }
        if o.exitCode = 0 then runSteps boxes beh req ws rest s2
        else { s2 with failed := true }

/-- Modelled from the spec (section 4.E step 5): execute the after hook
when present.  Its stderr is appended; a failure of the hook surfaces in
the response only when the primary result was successful. -/
def runAfter (boxes : List (String × Box)) (beh : Beh) (req : Request)
    (ws : String) (afterStep : Option Step) (s : ExecState) : ExecState :=
  match afterStep with
  | none => s
  | some a =>
    match execStep boxes beh req ws a s.world with
    | (argvO, res, w) =>
      let s1 := { s with world := w, trace := s.trace ++ [(Phase.after, argvO)] }
      match res with
      | Except.error e =>
        if s1.failed = false ∧ s1.err = none then { s1 with err := some e } else s1
      | Except.ok o =>
        let s2 := { s1 with stderr := s1.stderr ++ o.stderr }
        if o.exitCode = 0 then s2
        else if s2.failed = false ∧ s2.err = none then { s2 with failed := true }
        else s2

/-- Modelled from the spec (section 4.E step 6 and section 7): response
assembly.  An engine error is surfaced as the stderr of the response; a
response is ok exactly when no engine error occurred and every executed
step exited zero. -/
def mkResponse (req : Request) (s : ExecState) : Response :=
  match s.err with
  | some e => { id := req.id, ok := false, stdout := s.stdout, stderr := e, err := some e }
  | none => { id := req.id, ok := !s.failed, stdout := s.stdout, stderr := s.stderr, err := none }

/-- Modelled from the spec (section 4.E): the Docker engine.  Materialize
the workspace; run the before hook when present; on hook failure skip
the steps and run the after hook only when the hook was a detach start
that was actually spawned; otherwise run the steps in order and then the
after hook.  Returns the response, the trace of attempted phases, and
the final set of running containers. -/
def dockerExec (boxes : List (String × Box)) (cmd : Command) (beh : Beh)
    (req : Request) (w : List String) :
    Response × List (Phase × Option (List String)) × List String :=
  let ws := workspaceDir req.id
  match writeFiles cmd.entry req.files with
  | Except.error e =>
    ({ id := req.id, ok := false, stdout := "", stderr := e, err := some e }, [], w)
  | Except.ok _ =>
    let s0 : ExecState := { world := w }
    let s3 :=
      match cmd.before with
      | none => runAfter boxes beh req ws cmd.after (runSteps boxes beh req ws cmd.steps s0)
      | some b =>
        match execStep boxes beh req ws b w with
        | (argvO, res, w1) =>
          let s1 := { s0 with world := w1, trace := [(Phase.before, argvO)] }
          match res with
          | Except.error e => { s1 with err := some e }
          | Except.ok o =>
            if o.exitCode = 0 then
              runAfter boxes beh req ws cmd.after (runSteps boxes beh req ws cmd.steps s1)
            else
              let s2 := { s1 with failed := true, stderr := s1.stderr ++ o.stderr }
              if b.action = "run" && b.detach then
                runAfter boxes beh req ws cmd.after s2
              else s2
    (mkResponse req s3, s3.trace, s3.world)

/-- Count the trace entries belonging to a phase. -/
def countPhase (p : Phase) (tr : List (Phase × Option (List String))) : Nat :=
  (tr.filter (fun e => e.1 == p)).length

/-- The argv recorded at position i of a trace (empty when absent). -/
def argvAt (tr : List (Phase × Option (List String))) (i : Nat) : List String :=
  match tr.get? i with
  | some (_, some a) => a
  | _ => []

/-- A box as decoded from one JSON file of the boxes directory; only the
name field matters for registration, the image stands for the remaining
payload.  Translated from internal/config/load.go. -/
structure BoxJson where
  name : String := ""
  image : String := ""
  deriving DecidableEq, Repr

/-- Last path component of a file path (translation of filepath.Base as
used by readBoxesDir). -/
def baseNamePath (s : String) : String :=
  match (splitComponents s.data).getLast? with
  | some l => String.mk l
  | none => s

/-- Remove a trailing .json suffix when present (translation of the
strings.TrimSuffix call of readBoxesDir). -/
def trimJson (s : String) : String :=
  if startsWithTok (String.data ".json").reverse s.data.reverse then
    String.mk (s.data.take (s.data.length - 5))
  else s

/-- The key a decoded box is registered under: the name field of the JSON
when set, otherwise the base name of the file without the .json suffix.
Translated from readBoxesDir in internal/config/load.go. -/
def effName (fname : String) (b : BoxJson) : String :=
  if b.name = "" then trimJson (baseNamePath fname) else b.name

/-- Translation of readBoxesDir from internal/config/load.go: fold over
the discovered files in order, decoding each into a box, defaulting its
name from the file name, and storing it in the map under that name; a
later entry with the same effective name overwrites an earlier one.  The
built map is represented by its lookup function. -/
def readBoxesDir (files : List (String × BoxJson)) : String → Option BoxJson :=
  files.foldl
    (fun m p =>
      let nm := effName p.1 p.2
      fun k => if k = nm then some { p.2 with name := nm } else m k)
    (fun _ => none)

/-- Box alpine of the test configuration (internal/engine/docker_test.go). -/
def alpineBox : Box :=
  { image := "codapi/alpine", runtime := "runc",
    host := { cpu := 1, memory := 64, network := "none",
              volume := "%s:/sandbox:ro", nproc := 64 } }

/-- Box go of the test configuration. -/
def goBox : Box :=
  { image := "codapi/go", runtime := "runc",
    host := { cpu := 1, memory := 64, network := "none",
              volume := "%s:/sandbox:ro", nproc := 64 } }

/-- Box go:dev of the test configuration. -/
def goDevBox : Box :=
  { image := "codapi/go:dev", runtime := "runc",
    host := { cpu := 1, memory := 64, network := "none",
              volume := "%s:/sandbox:ro", nproc := 64 } }

/-- Box python of the test configuration. -/
def pythonBox : Box :=
  { image := "codapi/python", runtime := "runc",
    host := { cpu := 1, memory := 64, network := "none",
              volume := "%s:/sandbox:ro", nproc := 64 } }

/-- Box python:dev of the test configuration. -/
def pythonDevBox : Box :=
  { image := "codapi/python:dev", runtime := "runc",
    host := { cpu := 1, memory := 64, network := "none",
              volume := "%s:/sandbox:ro", nproc := 64 } }

/-- The boxes map of the test configuration. -/
def dockerBoxes : List (String × Box) :=
  [("alpine", alpineBox), ("go", goBox), ("go:dev", goDevBox),
   ("python", pythonBox), ("python:dev", pythonDevBox)]

/-- Before hook of the echo command of the alpine sandbox: a detached run. -/
def alpineBeforeStep : Step :=
  { box := "alpine", user := "sandbox", action := "run", detach := true,
    command := ["echo", "before"], nOutput := 4096 }

/-- Main step of the echo command of the alpine sandbox: an exec against
the ephemeral container. -/
def alpineExecStep : Step :=
  { box := ":name", user := "sandbox", action := "exec",
    command := ["sh", "main.sh"], nOutput := 4096 }

/-- After hook of the echo command of the alpine sandbox: stop the
ephemeral container. -/
def alpineAfterStep : Step :=
  { box := ":name", user := "sandbox", action := "stop", nOutput := 4096 }

/-- The echo command of the alpine sandbox from the test configuration. -/
def alpineEcho : Command :=
  { engine := "docker", before := some alpineBeforeStep,
    steps := [alpineExecStep], after := some alpineAfterStep }

/-- First step of the run command of the go sandbox: build. -/
def goStep1 : Step :=
  { box := "go", user := "sandbox", action := "run",
    command := ["go", "build"], nOutput := 4096 }

/-- Second step of the run command of the go sandbox: execute, pinned to
the latest version. -/
def goStep2 : Step :=
  { box := "alpine", version := "latest", user := "sandbox", action := "run",
    command := ["./main"], nOutput := 4096 }

/-- The run command of the go sandbox from the test configuration. -/
def goRun : Command :=
  { engine := "docker", steps := [goStep1, goStep2] }

/-- The single step of the run command of the python sandbox. -/
def pythonStep : Step :=
  { box := "python", user := "sandbox", action := "run",
    command := ["python", "main.py"], nOutput := 4096 }

/-- The run command of the python sandbox from the test configuration. -/
def pythonRun : Command :=
  { engine := "docker", entry := "main.py", steps := [pythonStep] }

/-- Canned runner of TestDockerRun: a run invocation prints hello world. -/
def runBeh : Beh := fun _ argv _ =>
  if argv.take 2 = ["docker", "run"] then
    { stdout := "hello world", stderr := "", exitCode := 0, err := none }
  else { stdout := "", stderr := "", exitCode := 1, err := some "unknown command" }

/-- Canned runner of TestDockerStop: run, exec and stop each succeed with
their recorded output. -/
def stopBeh : Beh := fun _ argv _ =>
  if argv.take 2 = ["docker", "run"] then
    { stdout := "c958ff2", stderr := "", exitCode := 0, err := none }
  else if argv.take 2 = ["docker", "exec"] then
    { stdout := "hello", stderr := "", exitCode := 0, err := none }
  else if argv.take 2 = ["docker", "stop"] then
    { stdout := "alpine_42", stderr := "", exitCode := 0, err := none }
  else { stdout := "", stderr := "", exitCode := 1, err := some "unknown command" }

/-- Canned runner where every run invocation fails with a non-zero exit
while exec and stop succeed; used to exercise the failure path of the
before hook. -/
def failBeh : Beh := fun _ argv _ =>
  if argv.take 2 = ["docker", "run"] then
    { stdout := "", stderr := "boom", exitCode := 1, err := none }
  else if argv.take 2 = ["docker", "exec"] then
    { stdout := "hello", stderr := "", exitCode := 0, err := none }
  else if argv.take 2 = ["docker", "stop"] then
    { stdout := "", stderr := "", exitCode := 0, err := none }
  else { stdout := "", stderr := "", exitCode := 1, err := some "unknown command" }

/-! Helper lemmas about the string machinery. -/

theorem string_mk_data (s : String) : String.mk s.data = s := by
  cases s
  rfl

theorem startsWithTok_refl (l : List Char) : startsWithTok l l = true := by
  induction l with
  | nil => rfl
  | cons c cs ih => simp [startsWithTok, ih]

theorem replaceAllAux_nil (pat rep : List Char) (f : Nat) :
    replaceAllAux pat rep f [] = [] := by
  cases f <;> rfl

theorem replaceAllAux_of_not_contains (pat rep : List Char) (f : Nat)
    (s : List Char) (h : containsTok pat s = false) :
    replaceAllAux pat rep f s = s := by
  induction f generalizing s with
  | zero => rfl
  | succ f ih =>
    cases s with
    | nil => rfl
    | cons c rest =>
      have h2 : startsWithTok pat (c :: rest) = false ∧ containsTok pat rest = false := by
        simpa [containsTok] using h
      simp [replaceAllAux, h2.1, ih rest h2.2]

theorem replaceAll_of_not_contains (pat rep s : List Char)
    (h : containsTok pat s = false) : replaceAll pat rep s = s :=
  replaceAllAux_of_not_contains pat rep s.length s h

theorem strReplace_of_not_contains (pat rep s : String)
    (h : containsTok pat.data s.data = false) : strReplace pat rep s = s := by
  unfold strReplace
  rw [replaceAll_of_not_contains pat.data rep.data s.data h, string_mk_data]

theorem replaceAll_self (c : Char) (cs rep : List Char) :
    replaceAll (c :: cs) rep (c :: cs) = rep := by
  unfold replaceAll
  show replaceAllAux (c :: cs) rep (cs.length + 1) (c :: cs) = rep
  rw [replaceAllAux]
  rw [startsWithTok_refl]
  simp [replaceAllAux_nil]

theorem strReplace_token (id : String) : strReplace ":name" id ":name" = id := by
  unfold strReplace
  rw [show (String.data ":name") = [':', 'n', 'a', 'm', 'e'] from rfl]
  rw [replaceAll_self, string_mk_data]

theorem expandVars_get (argv : List String) (id : String) (i : Nat) :
    (expandVars argv id).get? i = (argv.get? i).map (fun s => strReplace ":name" id s) := by
  unfold expandVars
  exact List.get?_map _ _ _

theorem expandVars_of_no_token (argv : List String) (id : String)
    (h : ∀ s ∈ argv, containsTok (String.data ":name") s.data = false) :
    expandVars argv id = argv := by
  induction argv with
  | nil => rfl
  | cons a rest ih =>
    have ha := h a (List.mem_cons_self a rest)
    have hrest := ih (fun s hs => h s (List.mem_cons_of_mem a hs))
    simp only [expandVars, List.map] at hrest ⊢
    rw [strReplace_of_not_contains _ _ _ ha, hrest]

theorem findUnsafe_of_mem (files : List (String × String)) (N c : String)
    (hmem : (N, c) ∈ files) (hN : isUnsafeName N = true) :
    ∃ M, findUnsafe files = some M ∧ isUnsafeName M = true ∧
      ∃ cM, (M, cM) ∈ files := by
  induction files with
  | nil => cases hmem
  | cons p rest ih =>
    by_cases hp : isUnsafeName p.1 = true
    · refine ⟨p.1, ?_, hp, p.2, ?_⟩
      · show findUnsafe (p :: rest) = some p.1
        unfold findUnsafe
        simp [hp]
      · exact List.mem_cons_self p rest
    · have hmem2 : (N, c) ∈ rest := by
        rcases List.mem_cons.mp hmem with h | h
        · exfalso
          apply hp
          rw [show p.1 = N from by rw [← h]]
          exact hN
        · exact h
      rcases ih hmem2 with ⟨M, hfind, hMu, cM, hMm⟩
      refine ⟨M, ?_, hMu, cM, List.mem_cons_of_mem p hMm⟩
      show findUnsafe (p :: rest) = some M
      unfold findUnsafe
      simp [hp, hfind]

theorem findUnsafe_eq_none (files : List (String × String))
    (h : findUnsafe files = none) :
    ∀ n c, (n, c) ∈ files → isUnsafeName n = false := by
  induction files with
  | nil => intro n c hm; cases hm
  | cons p rest ih =>
    intro n c hm
    have hp : isUnsafeName p.1 = false := by
      by_contra hc
      have hc2 : isUnsafeName p.1 = true := by
        cases hb : isUnsafeName p.1
        · exact absurd hb hc
        · rfl
      unfold findUnsafe at h
      simp [hc2] at h
    have hrest : findUnsafe rest = none := by
      unfold findUnsafe at h
      simpa [hp] using h
    rcases List.mem_cons.mp hm with he | he
    · rw [show n = p.1 from by rw [← he]]
      exact hp
    · exact ih hrest n c he

theorem writeFiles_safe (entry : String) (files : List (String × String))
    (l : List String) (h : writeFiles entry files = Except.ok l) :
    ∀ p ∈ l, p = entry ∨ isUnsafeName p = false := by
  intro p hp
  unfold writeFiles at h
  cases hfind : findUnsafe files with
  | some n => rw [hfind] at h; cases h
  | none =>
    rw [hfind] at h
    by_cases hcond : entry = "" ∧ 1 < files.length ∧ "" ∈ files.map Prod.fst
    · rw [if_pos hcond] at h; cases h
    · rw [if_neg hcond] at h
      have hl : l = files.filterMap (fun p =>
          if p.1 = "" then (if entry = "" then none else some entry) else some p.1) := by
        cases h; rfl
      rw [hl] at hp
      rcases List.mem_filterMap.mp hp with ⟨q, hq, hqe⟩
      by_cases hq1 : q.1 = ""
      · rw [if_pos hq1] at hqe
        by_cases he : entry = ""
        · rw [if_pos he] at hqe; cases hqe
        · rw [if_neg he] at hqe
          left
          cases hqe; rfl
      · rw [if_neg hq1] at hqe
        right
        have : p = q.1 := by cases hqe; rfl
        rw [this]
        exact findUnsafe_eq_none files hfind q.1 q.2 (by simpa using hq)

theorem dockerExec_write_error (boxes : List (String × Box)) (cmd : Command)
    (beh : Beh) (req : Request) (w : List String) (e : String)
    (h : writeFiles cmd.entry req.files = Except.error e) :
    dockerExec boxes cmd beh req w =
      ({ id := req.id, ok := false, stdout := "", stderr := e, err := some e }, [], w) := by
  unfold dockerExec
  rw [h]

/-! Claim theorems. -/

/-- C4: variable expansion replaces every occurrence of the name token in
every argv element with the request id, preserves the order and number of
elements, performs no other substitution (an element without the token is
returned unchanged), and also replaces occurrences embedded inside an
element, as witnessed by the recorded test vectors. -/
theorem expandVars_spec (argv : List String) (id : String) :
    (expandVars argv id).length = argv.length ∧
    (∀ i : Nat, (expandVars argv id).get? i =
        (argv.get? i).map (fun s => strReplace ":name" id s)) ∧
    (∀ i s, argv.get? i = some s →
        containsTok (String.data ":name") s.data = false →
        (expandVars argv id).get? i = some s) ∧
    expandVars ["python", "main.py"] "codapi_01" = ["python", "main.py"] ∧
    expandVars ["sh", "create.sh", ":name"] "codapi_01" = ["sh", "create.sh", "codapi_01"] ∧
    expandVars ["sh", "copy.sh", ":name", "new-:name"] "codapi_01" =
      ["sh", "copy.sh", "codapi_01", "new-codapi_01"] := by
  refine ⟨List.length_map _ _, expandVars_get argv id, ?_, by decide, by decide, by decide⟩
  intro i s hi hs
  rw [expandVars_get argv id i, hi]
  simp [strReplace_of_not_contains _ _ _ hs]

/-- Witness for C4 at a concrete input: an element without the token is
returned unchanged at its position. -/
theorem expandVars_spec_witness :
    (expandVars ["python", "main.py"] "codapi_01").get? 0 = some "python" :=
  (expandVars_spec ["python", "main.py"] "codapi_01").2.2.1 0 "python" rfl (by decide)

/-- C8: on an argv vector none of whose elements contains the name token,
variable expansion is the identity, and hence idempotent. -/
theorem expandVars_idempotent (argv : List String) (id : String)
    (h : ∀ s ∈ argv, containsTok (String.data ":name") s.data = false) :
    expandVars argv id = argv ∧
    expandVars (expandVars argv id) id = expandVars argv id := by
  have h1 := expandVars_of_no_token argv id h
  constructor
  · exact h1
  · rw [h1]
    exact h1

/-- Witness for C8 at a concrete input. -/
theorem expandVars_idempotent_witness :
    expandVars ["python", "main.py"] "codapi_01" = ["python", "main.py"] ∧
    expandVars (expandVars ["python", "main.py"] "codapi_01") "codapi_01" =
      expandVars ["python", "main.py"] "codapi_01" :=
  expandVars_idempotent ["python", "main.py"] "codapi_01" (by decide)

/-- C2: a request carrying a file whose name has a dot-dot component or
an absolute prefix makes the engine answer not ok with the invalid
filename error, the literal message naming the offending file, before any
container command runs (the trace is empty, so nothing was written and no
step executed); when the offending name is the only unsafe one the
message names exactly it; and on any successful materialization every
written path is the entry name or a safe relative name, so no write
escapes the workspace. -/
theorem invalid_filename_spec (boxes : List (String × Box)) (cmd : Command)
    (beh : Beh) (req : Request) (w : List String) (N c : String)
    (hmem : (N, c) ∈ req.files) (hN : isUnsafeName N = true) :
    (dockerExec boxes cmd beh req w).1.ok = false ∧
    (∃ M cM, (M, cM) ∈ req.files ∧ isUnsafeName M = true ∧
        (dockerExec boxes cmd beh req w).1.stderr = "files[" ++ M ++ "]: invalid name" ∧
        (dockerExec boxes cmd beh req w).1.err =
          some ("files[" ++ M ++ "]: invalid name")) ∧
    (dockerExec boxes cmd beh req w).2.1 = [] ∧
    ((∀ M cM, (M, cM) ∈ req.files → isUnsafeName M = true → M = N) →
        (dockerExec boxes cmd beh req w).1.stderr = "files[" ++ N ++ "]: invalid name") ∧
    (∀ entry fs l, writeFiles entry fs = Except.ok l →
        ∀ p ∈ l, p = entry ∨ isUnsafeName p = false) := by
  rcases findUnsafe_of_mem req.files N c hmem hN with ⟨M, hfind, hMu, cM, hMm⟩
  have hwf : writeFiles cmd.entry req.files =
      Except.error ("files[" ++ M ++ "]: invalid name") := by
    unfold writeFiles
    rw [hfind]
  have hde := dockerExec_write_error boxes cmd beh req w _ hwf
  rw [hde]
  refine ⟨rfl, ⟨M, cM, hMm, hMu, rfl, rfl⟩, rfl, ?_, writeFiles_safe⟩
  intro huniq
  have hMN : M = N := huniq M cM hMm hMu
  rw [hMN]

/-- Witness for C2 at the recorded directory traversal attack: the
request carrying a file climbing out of the workspace is rejected with
the exact invalid name message. -/
theorem invalid_filename_spec_witness :
    (dockerExec dockerBoxes pythonRun runBeh
        { id := "http_42", sandbox := "python", command := "run",
          files := [("", "print(1)"), ("../../opt/codapi/codapi", "hehe")] } []).1.ok
      = false ∧
    (dockerExec dockerBoxes pythonRun runBeh
        { id := "http_42", sandbox := "python", command := "run",
          files := [("", "print(1)"), ("../../opt/codapi/codapi", "hehe")] } []).1.stderr
      = "files[../../opt/codapi/codapi]: invalid name" := by
  have h := invalid_filename_spec dockerBoxes pythonRun runBeh
    { id := "http_42", sandbox := "python", command := "run",
      files := [("", "print(1)"), ("../../opt/codapi/codapi", "hehe")] } []
    "../../opt/codapi/codapi" "hehe" (by decide) (by decide)
  refine ⟨h.1, h.2.2.2.1 ?_⟩
  intro M cM hm hu
  rcases List.mem_cons.mp hm with he | he
  · exfalso
    have hM : M = "" := congrArg Prod.fst he
    rw [hM] at hu
    exact absurd hu (by decide)
  · rcases List.mem_cons.mp he with he2 | he2
    · exact congrArg Prod.fst he2
    · cases he2

/-- C1: box resolution returns the base box when the version is empty or
latest, returns the box registered under the versioned key for any other
version, and fails with the unknown box error when that key is not
registered; as exercised by the engine, an unresolvable step makes the
response not ok with the error text as its stderr (the recorded
unsupported version scenario of the python sandbox). -/
theorem resolveBox_spec (boxes : List (String × Box)) (n v : String) :
    (∀ b, (v = "" ∨ v = "latest") → alookup boxes n = some b →
        resolveBox boxes n v = Except.ok b) ∧
    (∀ b, ¬(v = "" ∨ v = "latest") → alookup boxes (n ++ ":" ++ v) = some b →
        resolveBox boxes n v = Except.ok b) ∧
    (¬(v = "" ∨ v = "latest") → alookup boxes (n ++ ":" ++ v) = none →
        resolveBox boxes n v = Except.error ("unknown box " ++ n ++ ":" ++ v)) ∧
    (dockerExec dockerBoxes pythonRun runBeh
        { id := "http_42", sandbox := "python", version := "42", command := "run",
          files := [("", "print(1)")] } []).1 =
      { id := "http_42", ok := false, stdout := "",
        stderr := "unknown box python:42", err := some "unknown box python:42" } := by
  refine ⟨?_, ?_, ?_, by decide⟩
  · intro b hv hl
    unfold resolveBox
    simp only [if_pos hv, hl]
  · intro b hv hl
    unfold resolveBox
    simp only [if_neg hv, hl]
  · intro hv hl
    unfold resolveBox
    simp only [if_neg hv, hl]

/-- Witness for C1 at a concrete input: version 42 of the python box is
not registered and resolution fails with the unknown box error. -/
theorem resolveBox_spec_witness :
    resolveBox dockerBoxes "python" "42" = Except.error "unknown box python:42" :=
  (resolveBox_spec dockerBoxes "python" "42").2.2.1 (by decide) (by decide)

/-- C10: a box file whose JSON does not set a name is registered under
the base name of the file without the json suffix; a set name wins over
the filename; and the box loaded last under a given effective name
silently overwrites any earlier one, as the fold equation shows.  The
concrete instance records an earlier filename-keyed box being overwritten
by a later file declaring the same name. -/
theorem readBoxesDir_spec (files : List (String × BoxJson)) (f : String)
    (b : BoxJson) (k : String) :
    (readBoxesDir (files ++ [(f, b)]) k =
        if k = effName f b then some { b with name := effName f b }
        else readBoxesDir files k) ∧
    (b.name = "" → effName f b = trimJson (baseNamePath f)) ∧
    (b.name ≠ "" → effName f b = b.name) ∧
    readBoxesDir [("boxes/go.json", { name := "", image := "i1" }),
        ("boxes/alpine.json", { name := "go", image := "i2" })] "go" =
      some { name := "go", image := "i2" } := by
  refine ⟨?_, ?_, ?_, by decide⟩
  · unfold readBoxesDir
    rw [List.foldl_append]
    rfl
  · intro h
    unfold effName
    rw [if_pos h]
  · intro h
    unfold effName
    rw [if_neg h]

/-- C5: for a run step the request-level version resolves the box exactly
when the step-level version is empty, and a non-empty step-level version
overrides the request-level one for that step only; in the recorded go
pipeline with request version dev, the first step (empty version) runs
the dev image while the second step (version latest) runs the base image
and not the dev one. -/
theorem step_version_spec (boxes : List (String × Box)) (req : Request)
    (step : Step) (ws : String) (h1 : step.action = "run") :
    (step.version = "" → stepArgs boxes req step ws =
        (resolveBox boxes step.box req.version).map (fun bx => runArgs bx ws step)) ∧
    (step.version ≠ "" → stepArgs boxes req step ws =
        (resolveBox boxes step.box step.version).map (fun bx => runArgs bx ws step)) ∧
    ((dockerExec dockerBoxes goRun runBeh
        { id := "http_42", sandbox := "go", version := "dev", command := "run",
          files := [("", "var n = 42")] } []).1.ok = true ∧
      (dockerExec dockerBoxes goRun runBeh
        { id := "http_42", sandbox := "go", version := "dev", command := "run",
          files := [("", "var n = 42")] } []).2.1.length = 2 ∧
      "codapi/go:dev" ∈ argvAt (dockerExec dockerBoxes goRun runBeh
        { id := "http_42", sandbox := "go", version := "dev", command := "run",
          files := [("", "var n = 42")] } []).2.1 0 ∧
      "codapi/alpine" ∈ argvAt (dockerExec dockerBoxes goRun runBeh
        { id := "http_42", sandbox := "go", version := "dev", command := "run",
          files := [("", "var n = 42")] } []).2.1 1 ∧
      ¬ "codapi/alpine:dev" ∈ argvAt (dockerExec dockerBoxes goRun runBeh
        { id := "http_42", sandbox := "go", version := "dev", command := "run",
          files := [("", "var n = 42")] } []).2.1 1) := by
  refine ⟨?_, ?_, by decide, by decide, by decide, by decide, by decide⟩
  · intro hv
    unfold stepArgs effectiveVersion
    rw [if_pos h1, if_pos hv]
    cases resolveBox boxes step.box req.version <;> rfl
  · intro hv
    unfold stepArgs effectiveVersion
    rw [if_pos h1, if_neg hv]
    cases resolveBox boxes step.box step.version <;> rfl

/-- Witness for C5 at a concrete input: the second go step carries the
explicit version latest, which overrides the request version dev and
resolves to the base alpine box. -/
theorem step_version_spec_witness :
    stepArgs dockerBoxes
      { id := "http_42", sandbox := "go", version := "dev", command := "run",
        files := [("", "var n = 42")] } goStep2 (workspaceDir "http_42") =
      (resolveBox dockerBoxes "alpine" "latest").map
        (fun bx => runArgs bx (workspaceDir "http_42") goStep2) :=
  (step_version_spec dockerBoxes
      { id := "http_42", sandbox := "go", version := "dev", command := "run",
        files := [("", "var n = 42")] } goStep2 (workspaceDir "http_42")
      (by decide)).2.1 (by decide)

theorem takeOut_length_le (n : Nat) (s : String) : (takeOut n s).length ≤ n := by
  show (s.data.take n).length ≤ n
  rw [List.length_take]
  exact min_le_left _ _

/-- C7: every step outcome handed back by the engine has both captured
streams truncated to at most the output cap of the step; truncation
changes neither the exit code nor the error status (so it is silent and
not an error), and with a cap of one character a program printing ab is
captured as exactly a. -/
theorem output_truncation_spec :
    (∀ (n : Nat) (o : CmdOut),
        (truncOut n o).stdout.length ≤ n ∧ (truncOut n o).stderr.length ≤ n ∧
        (truncOut n o).exitCode = o.exitCode ∧ (truncOut n o).err = o.err) ∧
    (∀ (boxes : List (String × Box)) (beh : Beh) (req : Request) (ws : String)
        (step : Step) (w : List String) (o : CmdOut),
        (execStep boxes beh req ws step w).2.1 = Except.ok o →
        o.stdout.length ≤ step.nOutput ∧ o.stderr.length ≤ step.nOutput) ∧
    truncOut 1 { stdout := "ab" } = { stdout := "a" } := by
  refine ⟨?_, ?_, by decide⟩
  · intro n o
    exact ⟨takeOut_length_le n o.stdout, takeOut_length_le n o.stderr, rfl, rfl⟩
  · intro boxes beh req ws step w o h
    unfold execStep at h
    cases hsa : stepArgs boxes req step ws with
    | error e => rw [hsa] at h; simp at h
    | ok argv0 =>
      rw [hsa] at h
      simp only at h
      cases hbe : (beh w (expandVars argv0 req.id)
          (if step.stdin then some (entryContent req) else none)).err with
      | some e => rw [hbe] at h; simp at h
      | none =>
        rw [hbe] at h
        simp only [Except.ok.injEq] at h
        rw [← h]
        exact ⟨takeOut_length_le _ _, takeOut_length_le _ _⟩

/-- Witness for C7 at a concrete input: the python run step with cap 4096
yields a captured stdout of at most 4096 characters. -/
theorem output_truncation_spec_witness :
    ({ stdout := "hello world", stderr := "", exitCode := 0, err := none } :
        CmdOut).stdout.length ≤ pythonStep.nOutput ∧
    ({ stdout := "hello world", stderr := "", exitCode := 0, err := none } :
        CmdOut).stderr.length ≤ pythonStep.nOutput :=
  output_truncation_spec.2.1 dockerBoxes runBeh
    { id := "http_42", sandbox := "python", command := "run",
      files := [("", "print(1)")] }
    (workspaceDir "http_42") pythonStep []
    { stdout := "hello world", stderr := "", exitCode := 0, err := none }
    (by rfl)

theorem execStep_world_run (boxes : List (String × Box)) (beh : Beh)
    (req : Request) (ws : String) (step : Step) (w : List String)
    (h4 : step.action = "run") (h5 : step.detach = false) :
    (execStep boxes beh req ws step w).2.2 = w := by
  unfold execStep
  cases hsa : stepArgs boxes req step ws with
  | error e => rfl
  | ok argv0 =>
    simp only
    cases hbe : (beh w (expandVars argv0 req.id)
        (if step.stdin then some (entryContent req) else none)).err with
    | some e =>
      show worldUpdate step req.id false w = w
      unfold worldUpdate
      rw [if_pos h4, h5]
      simp
    | none =>
      show worldUpdate step req.id true w = w
      unfold worldUpdate
      rw [if_pos h4, h5]
      simp

theorem runSteps_world_single (boxes : List (String × Box)) (beh : Beh)
    (req : Request) (ws : String) (s : Step) (st : ExecState)
    (h4 : s.action = "run") (h5 : s.detach = false) :
    (runSteps boxes beh req ws [s] st).world = st.world := by
  have hw := execStep_world_run boxes beh req ws s st.world h4 h5
  unfold runSteps
  rcases hE : execStep boxes beh req ws s st.world with ⟨argvO, res, w2⟩
  rw [hE] at hw
  cases res with
  | error e => exact hw
  | ok o =>
    simp only
    by_cases hex : o.exitCode = 0
    · rw [if_pos hex]
      unfold runSteps
      exact hw
    · rw [if_neg hex]
      exact hw

theorem dockerExec_world_stateless (boxes : List (String × Box)) (cmd : Command)
    (beh : Beh) (req : Request) (w : List String) (s : Step)
    (h1 : cmd.before = none) (h2 : cmd.after = none) (h3 : cmd.steps = [s])
    (h4 : s.action = "run") (h5 : s.detach = false) :
    (dockerExec boxes cmd beh req w).2.2 = w := by
  unfold dockerExec
  cases hwf : writeFiles cmd.entry req.files with
  | error e => rfl
  | ok l =>
    simp only [h1, h2, h3]
    show (runAfter boxes beh req (workspaceDir req.id) none
        (runSteps boxes beh req (workspaceDir req.id) [s] { world := w })).world = w
    unfold runAfter
    exact runSteps_world_single boxes beh req (workspaceDir req.id) s { world := w } h4 h5

/-- C9: submitting the same request twice to a stateless command (a
single run step without detach and no hooks) against the same
deterministic runtime behaviour yields identical stdout and identical
stderr, because the first execution leaves the set of running containers
unchanged. -/
theorem two_run_determinism (boxes : List (String × Box)) (cmd : Command)
    (beh : Beh) (req : Request) (w : List String) (s : Step)
    (h1 : cmd.before = none) (h2 : cmd.after = none) (h3 : cmd.steps = [s])
    (h4 : s.action = "run") (h5 : s.detach = false) :
    (dockerExec boxes cmd beh req
        (dockerExec boxes cmd beh req w).2.2).1.stdout =
      (dockerExec boxes cmd beh req w).1.stdout ∧
    (dockerExec boxes cmd beh req
        (dockerExec boxes cmd beh req w).2.2).1.stderr =
      (dockerExec boxes cmd beh req w).1.stderr := by
  rw [dockerExec_world_stateless boxes cmd beh req w s h1 h2 h3 h4 h5]
  exact ⟨rfl, rfl⟩

/-- Witness for C9 at a concrete input: running the python request twice
in sequence yields identical output both times. -/
theorem two_run_determinism_witness :
    (dockerExec dockerBoxes pythonRun runBeh
        { id := "http_42", sandbox := "python", command := "run",
          files := [("", "print(1)")] }
        (dockerExec dockerBoxes pythonRun runBeh
          { id := "http_42", sandbox := "python", command := "run",
            files := [("", "print(1)")] } []).2.2).1.stdout =
      (dockerExec dockerBoxes pythonRun runBeh
        { id := "http_42", sandbox := "python", command := "run",
          files := [("", "print(1)")] } []).1.stdout ∧
    (dockerExec dockerBoxes pythonRun runBeh
        { id := "http_42", sandbox := "python", command := "run",
          files := [("", "print(1)")] }
        (dockerExec dockerBoxes pythonRun runBeh
          { id := "http_42", sandbox := "python", command := "run",
            files := [("", "print(1)")] } []).2.2).1.stderr =
      (dockerExec dockerBoxes pythonRun runBeh
        { id := "http_42", sandbox := "python", command := "run",
          files := [("", "print(1)")] } []).1.stderr :=
  two_run_determinism dockerBoxes pythonRun runBeh
    { id := "http_42", sandbox := "python", command := "run",
      files := [("", "print(1)")] } [] pythonStep rfl rfl rfl (by decide) (by decide)

theorem countPhase_append (p : Phase) (t1 t2 : List (Phase × Option (List String))) :
    countPhase p (t1 ++ t2) = countPhase p t1 + countPhase p t2 := by
  unfold countPhase
  rw [List.filter_append, List.length_append]

theorem countPhase_of_all_stepP (p : Phase) (hp : p ≠ Phase.stepP)
    (t : List (Phase × Option (List String))) (h : ∀ e ∈ t, e.1 = Phase.stepP) :
    countPhase p t = 0 := by
  unfold countPhase
  rw [List.length_eq_zero]
  rw [List.filter_eq_nil_iff]
  intro e he
  rw [h e he]
  simp
  intro hc
  exact hp hc.symm

theorem runAfter_none_eq (boxes : List (String × Box)) (beh : Beh)
    (req : Request) (ws : String) (s : ExecState) :
    runAfter boxes beh req ws none s = s := rfl

theorem runAfter_some_trace (boxes : List (String × Box)) (beh : Beh)
    (req : Request) (ws : String) (a : Step) (s : ExecState) :
    (runAfter boxes beh req ws (some a) s).trace =
      s.trace ++ [(Phase.after, (execStep boxes beh req ws a s.world).1)] := by
  unfold runAfter
  dsimp only
  rcases hE : execStep boxes beh req ws a s.world with ⟨argvO, res, w2⟩
  dsimp only
  cases res with
  | error e =>
    dsimp only
    by_cases hc : s.failed = false ∧ s.err = none
    · rw [if_pos hc]
    · rw [if_neg hc]
  | ok o =>
    dsimp only
    by_cases hex : o.exitCode = 0
    · rw [if_pos hex]
    · rw [if_neg hex]
      by_cases hc : s.failed = false ∧ s.err = none
      · rw [if_pos hc]
      · rw [if_neg hc]

theorem runAfter_keeps_failure (boxes : List (String × Box)) (beh : Beh)
    (req : Request) (ws : String) (aft : Option Step) (s : ExecState)
    (hf : s.failed = true) :
    (runAfter boxes beh req ws aft s).failed = true ∧
    (runAfter boxes beh req ws aft s).err = s.err := by
  cases aft with
  | none => exact ⟨hf, rfl⟩
  | some a =>
    unfold runAfter
    dsimp only
    rcases hE : execStep boxes beh req ws a s.world with ⟨argvO, res, w2⟩
    dsimp only
    cases res with
    | error e =>
      dsimp only
      rw [if_neg]
      · exact ⟨hf, rfl⟩
      · intro hc
        rw [hf] at hc
        simp at hc
    | ok o =>
      dsimp only
      by_cases hex : o.exitCode = 0
      · rw [if_pos hex]
        exact ⟨hf, rfl⟩
      · rw [if_neg hex]
        rw [if_neg]
        · exact ⟨hf, rfl⟩
        · intro hc
          rw [hf] at hc
          simp at hc

theorem runSteps_trace_decomp (boxes : List (String × Box)) (beh : Beh)
    (req : Request) (ws : String) (l : List Step) (s : ExecState) :
    ∃ t, (runSteps boxes beh req ws l s).trace = s.trace ++ t ∧
      ∀ e ∈ t, e.1 = Phase.stepP := by
  induction l generalizing s with
  | nil =>
    refine ⟨[], ?_, ?_⟩
    · rw [List.append_nil]
      rfl
    · intro e he
      cases he
  | cons step rest ih =>
    unfold runSteps
    dsimp only
    rcases hE : execStep boxes beh req ws step s.world with ⟨argvO, res, w2⟩
    dsimp only
    cases res with
    | error e =>
      dsimp only
      refine ⟨[(Phase.stepP, argvO)], rfl, ?_⟩
      intro e he
      rw [List.mem_singleton.mp he]
    | ok o =>
      dsimp only
      by_cases hex : o.exitCode = 0
      · rw [if_pos hex]
        rcases ih ⟨s.stdout ++ o.stdout, s.stderr ++ o.stderr, s.failed, s.err, s.trace ++ [(Phase.stepP, argvO)], w2⟩ with ⟨t, ht, hall⟩
        dsimp only at ht
        refine ⟨[(Phase.stepP, argvO)] ++ t, ?_, ?_⟩
        · rw [← List.append_assoc]
          exact ht
        · intro e he
          rcases List.mem_append.mp he with h | h
          · rw [List.mem_singleton.mp h]
          · exact hall e h
      · rw [if_neg hex]
        refine ⟨[(Phase.stepP, argvO)], rfl, ?_⟩
        intro e he
        rw [List.mem_singleton.mp he]

/-- C3: when the before hook of a command fails with a runner error the
steps are skipped, the after hook is skipped and the failure is returned;
when it fails with a non-zero exit the steps are skipped, the failure is
returned, and the after hook runs exactly when the hook was a detach
start (which, having been spawned, actually produced the container); and
whenever the before hook succeeds the after hook runs exactly once
regardless of the outcomes of the steps. -/
theorem hooks_spec (boxes : List (String × Box)) (cmd : Command) (beh : Beh)
    (req : Request) (w : List String) (b : Step)
    (hb : cmd.before = some b)
    (hwf : ∃ l, writeFiles cmd.entry req.files = Except.ok l) :
    (∀ e, (execStep boxes beh req (workspaceDir req.id) b w).2.1 = Except.error e →
        countPhase Phase.stepP (dockerExec boxes cmd beh req w).2.1 = 0 ∧
        countPhase Phase.after (dockerExec boxes cmd beh req w).2.1 = 0 ∧
        (dockerExec boxes cmd beh req w).1.ok = false) ∧
    (∀ o, (execStep boxes beh req (workspaceDir req.id) b w).2.1 = Except.ok o →
        o.exitCode ≠ 0 →
        countPhase Phase.stepP (dockerExec boxes cmd beh req w).2.1 = 0 ∧
        (dockerExec boxes cmd beh req w).1.ok = false ∧
        countPhase Phase.after (dockerExec boxes cmd beh req w).2.1 =
          (if (b.action = "run" && b.detach) = true then
            (if cmd.after.isSome then 1 else 0) else 0)) ∧
    (∀ o, (execStep boxes beh req (workspaceDir req.id) b w).2.1 = Except.ok o →
        o.exitCode = 0 → ∀ a, cmd.after = some a →
        countPhase Phase.after (dockerExec boxes cmd beh req w).2.1 = 1) := by
  obtain ⟨l, hl⟩ := hwf
  rcases hE : execStep boxes beh req (workspaceDir req.id) b w with ⟨argvO, res, w1⟩
  refine ⟨?_, ?_, ?_⟩
  · intro e he
    have hres : res = Except.error e := he
    subst hres
    unfold dockerExec
    rw [hl]
    dsimp only
    rw [hb]
    dsimp only
    rw [hE]
    dsimp only
    exact ⟨rfl, rfl, rfl⟩
  · intro o ho hex
    have hres : res = Except.ok o := ho
    subst hres
    unfold dockerExec
    rw [hl]
    dsimp only
    rw [hb]
    dsimp only
    rw [hE]
    dsimp only
    rw [if_neg hex]
    by_cases hbd : (b.action = "run" && b.detach) = true
    · rw [if_pos hbd, if_pos hbd]
      cases haft : cmd.after with
      | none =>
        rw [runAfter_none_eq]
        exact ⟨rfl, rfl, rfl⟩
      | some a =>
        set s2 : ExecState :=
          { stdout := "", stderr := "" ++ o.stderr, failed := true, err := none,
            trace := [(Phase.before, argvO)], world := w1 } with hs2
        have htr := runAfter_some_trace boxes beh req (workspaceDir req.id) a s2
        have hkf := runAfter_keeps_failure boxes beh req (workspaceDir req.id)
          (some a) s2 rfl
        refine ⟨?_, ?_, ?_⟩
        · rw [htr, countPhase_append]
          rfl
        · unfold mkResponse
          rw [hkf.2]
          dsimp only [hs2]
          rw [hkf.1]
          rfl
        · rw [htr, countPhase_append]
          rfl
    · rw [if_neg hbd, if_neg hbd]
      exact ⟨rfl, rfl, rfl⟩
  · intro o ho hex a haft
    have hres : res = Except.ok o := ho
    subst hres
    unfold dockerExec
    rw [hl]
    dsimp only
    rw [hb]
    dsimp only
    rw [hE]
    dsimp only
    rw [if_pos hex, haft]
    set s1 : ExecState :=
      { stdout := "", stderr := "", failed := false, err := none,
        trace := [(Phase.before, argvO)], world := w1 } with hs1
    set S := runSteps boxes beh req (workspaceDir req.id) cmd.steps s1 with hS
    have htr := runAfter_some_trace boxes beh req (workspaceDir req.id) a S
    rw [htr, countPhase_append]
    rcases runSteps_trace_decomp boxes beh req (workspaceDir req.id) cmd.steps s1
      with ⟨t, ht, hall⟩
    rw [← hS] at ht
    rw [ht, countPhase_append]
    rw [countPhase_of_all_stepP Phase.after (by intro hc; cases hc) t hall]
    rfl

/-- Witness for C3 at a concrete input: with a runtime behaviour whose
run invocations fail with a non-zero exit, the alpine echo command skips
its step, returns the failure, and still runs its stop hook because the
before hook was a detach start. -/
theorem hooks_spec_witness :
    countPhase Phase.stepP (dockerExec dockerBoxes alpineEcho failBeh
      { id := "alpine_42", sandbox := "alpine", command := "echo",
        files := [("", "echo hello")] } []).2.1 = 0 ∧
    (dockerExec dockerBoxes alpineEcho failBeh
      { id := "alpine_42", sandbox := "alpine", command := "echo",
        files := [("", "echo hello")] } []).1.ok = false ∧
    countPhase Phase.after (dockerExec dockerBoxes alpineEcho failBeh
      { id := "alpine_42", sandbox := "alpine", command := "echo",
        files := [("", "echo hello")] } []).2.1 =
      (if (alpineBeforeStep.action = "run" && alpineBeforeStep.detach) = true then
        (if alpineEcho.after.isSome then 1 else 0) else 0) := by
  have h := (hooks_spec dockerBoxes alpineEcho failBeh
    { id := "alpine_42", sandbox := "alpine", command := "echo",
      files := [("", "echo hello")] } [] alpineBeforeStep rfl ⟨_, rfl⟩).2.1
    { stdout := "", stderr := "boom", exitCode := 1, err := none } (by rfl) (by decide)
  exact h

theorem expand_exec_args (id : String) :
    expandVars (execArgs alpineExecStep) id =
      ["docker", "exec", "--interactive", "--user", "sandbox", id, "sh", "main.sh"] := by
  show [strReplace ":name" id "docker", strReplace ":name" id "exec",
        strReplace ":name" id "--interactive", strReplace ":name" id "--user",
        strReplace ":name" id "sandbox", strReplace ":name" id ":name",
        strReplace ":name" id "sh", strReplace ":name" id "main.sh"] = _
  rw [strReplace_token]
  rfl

theorem expand_stop_args (id : String) :
    expandVars (stopArgs alpineAfterStep) id = ["docker", "stop", id] := by
  show [strReplace ":name" id "docker", strReplace ":name" id "stop",
        strReplace ":name" id ":name"] = _
  rw [strReplace_token]
  rfl

theorem expand_run_take (id : String) :
    (expandVars (runArgs alpineBox (workspaceDir id) alpineBeforeStep) id).take 5 =
      ["docker", "run", "--rm", "--name", id] := by
  show [strReplace ":name" id "docker", strReplace ":name" id "run",
        strReplace ":name" id "--rm", strReplace ":name" id "--name",
        strReplace ":name" id ":name"] = _
  rw [strReplace_token]
  rfl

theorem expand_run_detach (id : String) :
    "--detach" ∈ expandVars (runArgs alpineBox (workspaceDir id) alpineBeforeStep) id := by
  have h1 : strReplace ":name" id "--detach" = "--detach" :=
    strReplace_of_not_contains ":name" id "--detach" (by decide)
  have hmem : "--detach" ∈ runArgs alpineBox (workspaceDir id) alpineBeforeStep := by
    unfold runArgs
    refine List.mem_append_left _ ?_
    refine List.mem_append_left _ ?_
    refine List.mem_append_left _ ?_
    refine List.mem_append_right _ ?_
    show "--detach" ∈ ["--detach"]
    exact List.mem_singleton.mpr rfl
  have h2 := List.mem_map_of_mem (fun s => strReplace ":name" id s) hmem
  dsimp only at h2
  rw [h1] at h2
  show "--detach" ∈ List.map (fun s => strReplace ":name" id s)
    (runArgs alpineBox (workspaceDir id) alpineBeforeStep)
  exact h2

/-- C6: for the alpine echo command (detached before run, exec step
against the ephemeral container, stop hook) the engine emits exactly
three runner invocations in order: the detached run carrying the
container name derived from the request id, then the interactive exec of
the main script inside that container, then the stop of that container;
and when all three succeed the response is ok with the stdout of the exec
step. -/
theorem detached_lifecycle_spec (id : String) :
    (∃ a1,
      (dockerExec dockerBoxes alpineEcho stopBeh
        { id := id, sandbox := "alpine", command := "echo",
          files := [("", "echo hello")] } []).2.1 =
        [(Phase.before, some a1),
         (Phase.stepP, some ["docker", "exec", "--interactive", "--user",
            "sandbox", id, "sh", "main.sh"]),
         (Phase.after, some ["docker", "stop", id])] ∧
      a1.take 5 = ["docker", "run", "--rm", "--name", id] ∧
      "--detach" ∈ a1) ∧
    (dockerExec dockerBoxes alpineEcho stopBeh
      { id := id, sandbox := "alpine", command := "echo",
        files := [("", "echo hello")] } []).1.ok = true ∧
    (dockerExec dockerBoxes alpineEcho stopBeh
      { id := id, sandbox := "alpine", command := "echo",
        files := [("", "echo hello")] } []).1.stdout = "hello" ∧
    (dockerExec dockerBoxes alpineEcho stopBeh
      { id := id, sandbox := "alpine", command := "echo",
        files := [("", "echo hello")] } []).1.err = none := by
  refine ⟨⟨expandVars (runArgs alpineBox (workspaceDir id) alpineBeforeStep) id,
    ?_, expand_run_take id, expand_run_detach id⟩, rfl, rfl, rfl⟩
  show [(Phase.before, some (expandVars (runArgs alpineBox (workspaceDir id)
          alpineBeforeStep) id)),
        (Phase.stepP, some (expandVars (execArgs alpineExecStep) id)),
        (Phase.after, some (expandVars (stopArgs alpineAfterStep) id))] = _
  rw [expand_exec_args, expand_stop_args]

/-- Witness for C10 at a concrete input: a file named go.json with an
unset name field registers the box under go, and a later file declaring
the name go overwrites it. -/
theorem readBoxesDir_spec_witness :
    readBoxesDir [("boxes/go.json", { name := "", image := "i1" })] "go" =
      some { name := "go", image := "i1" } ∧
    effName "boxes/go.json" { name := "", image := "i1" } = "go" := by
  constructor
  · have h := (readBoxesDir_spec [] "boxes/go.json" { name := "", image := "i1" } "go").1
    simpa using h
  · have h := (readBoxesDir_spec [] "boxes/go.json" { name := "", image := "i1" } "go").2.1 rfl
    simpa using h

end Codapi
